import Mathlib

/-!
Verification development for the mathine-hackathon RAG pipeline.

Shallow embedding of the Python sources under `src/rag/`:
  * `cooking_data/textbook_to_html.py` — PDF extraction cascade,
    positional-XML paragraph reconstruction, low-yield policy;
  * `eating_data/encode_corpus.py`, `eating_data/ingest_slides_html.py`,
    `eating_data/encoding_html_to_faiss.py` — HTML chunkers, text
    normalization, manifest change detection, index build;
  * `mini.py` — quiz filter parsing, subset materialization, and the
    dense subset retriever.

Python strings are modelled as Lean `String` / `List Char`; Python ints
as `Int`/`Nat` (arbitrary precision, as in Python).  The float division
in the low-yield test is exact on its operands (small integers, far
below any float-rounding regime); the embedding states it in its
equivalent integer form and proves the equivalence to the
rational-division comparison where the specification talks about it.
-/

namespace Rag

/-! ## Shared text normalization (`clean_text` and Python `str.strip`)

`clean_text` appears verbatim in `encode_corpus.py` (lines 23–28),
`ingest_slides_html.py` (lines 38–42) and `encoding_html_to_faiss.py`
(lines 49–53):

```python
def clean_text(s: str) -> str:
    s = s.replace("\xa0", " ")
    s = re.sub(r"[ \t]+", " ", s)
    s = re.sub(r"\n{3,}", "\n\n", s)
    return s.strip()
```
-/

/-- Characters stripped by Python `str.strip()` with no argument
(ASCII whitespace; the non-breaking space has already been replaced by
the time `strip` runs in `clean_text`). -/
def pyWs (c : Char) : Bool :=
  c = ' ' || c = '\t' || c = '\n' || c = '\r' || c = '\u000b' || c = '\u000c'

/-- The character class `[ \t]` of the first `re.sub` in `clean_text`. -/
def isSpaceTab (c : Char) : Bool :=
  c = ' ' || c = '\t'

/-- Model of `s.replace("\xa0", " ")`: map every non-breaking space to a space. -/
def replNbsp (l : List Char) : List Char :=
  l.map (fun c => if c = '\u00A0' then ' ' else c)

/-- Run state for `collapseSTAux`: whether the previous character was
part of a space/tab run (whose single replacement space is already
emitted). -/
def collapseSTAux : Bool → List Char → List Char
  | _, [] => []
  | inRun, c :: cs =>
    if isSpaceTab c then
      if inRun then collapseSTAux true cs else ' ' :: collapseSTAux true cs
    else c :: collapseSTAux false cs

/-- Model of `re.sub(r"[ \t]+", " ", s)`: every maximal run of spaces/tabs
is replaced by a single space (emitted at the start of the run; the rest
of the run is dropped). -/
def collapseST (l : List Char) : List Char :=
  collapseSTAux false l

/-- Newline-run state for `collapseNlAux`: how many newlines of the
current run have been emitted (saturating at 2). -/
def collapseNlAux : Nat → List Char → List Char
  | _, [] => []
  | seen, c :: cs =>
    if c = '\n' then
      if seen < 2 then '\n' :: collapseNlAux (seen + 1) cs else collapseNlAux seen cs
    else c :: collapseNlAux 0 cs

/-- Model of `re.sub(r"\n{3,}", "\n\n", s)`: every maximal run of three
or more newlines is replaced by exactly two (at most the first two
newlines of each run are kept); shorter runs are unchanged. -/
def collapseNl (l : List Char) : List Char :=
  collapseNlAux 0 l

/-- Python `str.strip()`: drop leading and trailing whitespace. -/
def stripChars (l : List Char) : List Char :=
  ((l.dropWhile pyWs).reverse.dropWhile pyWs).reverse

/-- Python `str.strip()` on a `String`. -/
def pyStrip (s : String) : String :=
  ⟨stripChars s.data⟩

/-- The `clean_text` pipeline on character lists: replace NBSP, collapse space/tab
runs, collapse newline runs of three or more, strip. -/
def cleanChars (l : List Char) : List Char :=
  stripChars (collapseNl (collapseST (replNbsp l)))

/-- Function `clean_text` (identical in `encode_corpus.py`, `ingest_slides_html.py`
and `encoding_html_to_faiss.py`). -/
def clean_text (s : String) : String :=
  ⟨cleanChars s.data⟩

/-- Detector for two consecutive spaces somewhere in the list. -/
def hasDoubleSpace : List Char → Bool
  | a :: b :: t => (a = ' ' && b = ' ') || hasDoubleSpace (b :: t)
  | _ => false

/-- Detector for three consecutive newlines somewhere in the list. -/
def hasTripleNl : List Char → Bool
  | a :: b :: c :: t => (a = '\n' && b = '\n' && c = '\n') || hasTripleNl (b :: c :: t)
  | _ => false

/-! ## Low-yield policy (`textbook_to_html.py`, lines 205–209)

```python
def is_low_yield(text: str, pages: int, min_chars_per_page: int = 200) -> bool:
    if not text or pages <= 0:
        return True
    return (len(text) / max(1, pages)) < min_chars_per_page
```
-/

/-- Function `is_low_yield` from `textbook_to_html.py`.  The Python
float division `len(text) / max(1, pages) < min_chars_per_page` is exact
on these operands and is embedded in its equivalent cross-multiplied
integer form (so that the function evaluates inside the kernel);
`C2_low_yield_policy` proves the embedded test equivalent to the
rational-division comparison. -/
def is_low_yield (text : String) (pages : Int) (min_chars_per_page : Nat := 200) : Bool :=
  if text = "" || pages ≤ 0 then true
  else decide ((text.length : ℤ) < (min_chars_per_page : ℤ) * max 1 pages)

/-! ## Extraction cascade (`textbook_to_html.py`, `convert_pdf_to_html_text_first`,
lines 213–287)

The cascade calls external command-line tools; each tool invocation is an
opaque boundary (spec §6).  A `CascadeEnv` records, for one input PDF,
what every tool invocation would return: `none` models a failed
invocation (`try_run` returning `None`), `some t` a successful one with
(already `.strip()`-ed, where the source strips) decoded output `t`.
The repository code that remains — the order of the methods, each
method's availability gate and its low-yield acceptance test, and the
early returns — is embedded below exactly as written. -/

structure CascadeEnv where
  /-- Result of `pdfinfo`-based `pdf_page_count` (0 when undetermined). -/
  pages : Int
  /-- Result of `pdftotext -enc UTF-8 -layout`, stdout decoded and stripped. -/
  pdftotext_layout : Option String
  /-- Result of `pdftotext -enc UTF-8`, stdout decoded and stripped. -/
  pdftotext_default : Option String
  /-- Result of `pdftotext -enc UTF-8 -raw`, stdout decoded and stripped. -/
  pdftotext_raw : Option String
  /-- Whether `which("mutool")` found the tool. -/
  mutool_available : Bool
  /-- Per-page `mutool draw` outputs concatenated with a blank line (not
  stripped — the source strips only inside its emptiness test), `none`
  when the invocation failed. -/
  mutool_text : Option String
  /-- Result of `python3 -m pdfminer.high_level`, stdout decoded and stripped. -/
  pdfminer_text : Option String
  /-- Whether `pdftohtml -xml` succeeded and the XML file exists. -/
  xml_ok : Bool
  /-- Output of `xml_to_html_paragraphs` on the produced XML (not stripped). -/
  xml_rebuilt : String
  /-- The `--enable-ocr` flag. -/
  enable_ocr : Bool
  /-- Whether `which("ocrmypdf")` found the tool. -/
  ocr_available : Bool
  /-- Whether `ocrmypdf` exited 0 and produced the OCR'd PDF. -/
  ocr_ok : Bool
  /-- Result of `pdftotext -enc UTF-8 -layout` on the OCR'd PDF, stripped. -/
  ocr_text : Option String
  /-- Whether the final page-image `pdftohtml` invocation succeeded. -/
  pageimages_ok : Bool

/-- An additional text-extraction step of the cascade, together with the
text it accepted.  The `variant` of `pdftotext` is 0 (layout), 1
(default) or 2 (raw). -/
inductive CascadeResult where
  | pdftotext (variant : Nat) (text : String)
  | mutool (text : String)
  | pdfminer (text : String)
  | xml (text : String)
  | ocr (text : String)
  | pageImages
  | fail
deriving DecidableEq

/-- Acceptance test of cascade step `j` (0,1,2 = the three `pdftotext`
variants, 3 = `mutool`, 4 = `pdfminer`, 5 = positional XML, 6 = OCR):
`some t` when the step would return, `none` when it is skipped, its tool
failed, or its output is empty/low-yield.  Each case transcribes the
corresponding guard of `convert_pdf_to_html_text_first`. -/
def stepText (e : CascadeEnv) : Nat → Option String
  | 0 => match e.pdftotext_layout with
    | some txt => if txt ≠ "" ∧ is_low_yield txt e.pages = false then some txt else none
    | none => none
  | 1 => match e.pdftotext_default with
    | some txt => if txt ≠ "" ∧ is_low_yield txt e.pages = false then some txt else none
    | none => none
  | 2 => match e.pdftotext_raw with
    | some txt => if txt ≠ "" ∧ is_low_yield txt e.pages = false then some txt else none
    | none => none
  | 3 =>
    if e.mutool_available then
      match e.mutool_text with
      | some text =>
        if pyStrip text ≠ "" ∧ is_low_yield text e.pages = false then some text else none
      | none => none
    else none
  | 4 => match e.pdfminer_text with
    | some text => if text ≠ "" ∧ is_low_yield text e.pages = false then some text else none
    | none => none
  | 5 =>
    if e.xml_ok then
      if pyStrip e.xml_rebuilt ≠ "" ∧ is_low_yield e.xml_rebuilt e.pages 100 = false then
        some e.xml_rebuilt
      else none
    else none
  | 6 =>
    if e.enable_ocr && e.ocr_available && e.ocr_ok then
      match e.ocr_text with
      | some txt => if txt ≠ "" ∧ is_low_yield txt e.pages 150 = false then some txt else none
      | none => none
    else none
  | _ => none

/-- Function `convert_pdf_to_html_text_first`: try the methods in their
source order and return at the first acceptance; the page-image last
resort has no yield test, and a failed page-image invocation is the
`[FAIL] no method succeeded` path. -/
def convert_pdf_to_html_text_first (e : CascadeEnv) : CascadeResult :=
  match stepText e 0 with
  | some t => .pdftotext 0 t
  | none => match stepText e 1 with
    | some t => .pdftotext 1 t
    | none => match stepText e 2 with
      | some t => .pdftotext 2 t
      | none => match stepText e 3 with
        | some t => .mutool t
        | none => match stepText e 4 with
          | some t => .pdfminer t
          | none => match stepText e 5 with
            | some t => .xml t
            | none => match stepText e 6 with
              | some t => .ocr t
              | none => if e.pageimages_ok then .pageImages else .fail

/-- Ordinal rank of the method a cascade result came from (7 = page
images, 8 = total failure). -/
def methodRank : CascadeResult → Nat
  | .pdftotext v _ => v
  | .mutool _ => 3
  | .pdfminer _ => 4
  | .xml _ => 5
  | .ocr _ => 6
  | .pageImages => 7
  | .fail => 8

/-- Text carried by a cascade result, if any. -/
def resultText : CascadeResult → Option String
  | .pdftotext _ t => some t
  | .mutool t => some t
  | .pdfminer t => some t
  | .xml t => some t
  | .ocr t => some t
  | .pageImages => none
  | .fail => none

/-! ## Positional-XML paragraph reconstruction (`textbook_to_html.py`,
`xml_to_html_paragraphs`, lines 101–189)

One positioned text run extracted from a `pdftohtml -xml` `<text>` node.
The source converts the `top`/`left` attributes to Python floats, but
`pdftohtml -xml` emits integer pixel offsets and the algorithm only
subtracts and compares them, which is exact; the coordinates are
therefore modelled as `ℤ`. -/

structure Run where
  page : Nat
  top : ℤ
  left : ℤ
  text : String
deriving DecidableEq

/-- Python `abs` on the modelled coordinates. -/
def qabs (q : ℤ) : ℤ := if q < 0 then -q else q

/-- Ordering used by `items.sort(key=lambda r: (r[0], r[1], r[2]))`:
lexicographic on (page, top, left). -/
def runOrd (a b : Run) : Prop :=
  a.page < b.page ∨ (a.page = b.page ∧ (a.top < b.top ∨ (a.top = b.top ∧ a.left ≤ b.left)))

instance : DecidableRel runOrd := fun a b => by unfold runOrd; infer_instance

/-- Mutable state of the reconstruction loop: current page, vertical
anchor of the current line, tokens of the current line, lines of the
current paragraph, finished paragraphs. -/
structure XmlState where
  curr_p : Option Nat
  curr_y : Option ℤ
  line_tokens : List Run
  out_lines : List String
  paragraphs : List String
deriving DecidableEq

/-- Inner `flush_line`: sort the pending tokens by horizontal offset,
join their texts with single spaces, and append the line when non-empty. -/
def flushLine (st : XmlState) : XmlState :=
  if st.line_tokens = [] then st
  else
    let sorted := List.insertionSort (fun a b => a.left ≤ b.left) st.line_tokens
    let line := String.intercalate " " ((sorted.map Run.text).filter (· ≠ ""))
    { st with
      line_tokens := []
      out_lines := if line = "" then st.out_lines else st.out_lines ++ [line] }

/-- Inner `flush_paragraph`: join the pending lines with spaces, strip,
and append the paragraph when there were lines. -/
def flushParagraph (st : XmlState) : XmlState :=
  if st.out_lines = [] then st
  else
    { st with
      out_lines := []
      paragraphs := st.paragraphs ++ [pyStrip (String.intercalate " " st.out_lines)] }

/-- Loop body of `xml_to_html_paragraphs` for one sorted run: a page
change flushes line and paragraph; a vertical jump beyond the line
tolerance 6 flushes the line, and beyond the paragraph tolerance 18 also
the paragraph; the run then joins the current line. -/
def xmlStep (st : XmlState) (r : Run) : XmlState :=
  let st :=
    if st.curr_p ≠ some r.page then
      let st := flushParagraph (flushLine st)
      { st with curr_p := some r.page, curr_y := some r.top }
    else st
  let st :=
    match st.curr_y with
    | none =>
      let st := flushLine st
      { st with curr_y := some r.top }
    | some cy =>
      if qabs (r.top - cy) > 6 then
        let st := flushLine st
        let st := if qabs (r.top - cy) > 18 then flushParagraph st else st
        { st with curr_y := some r.top }
      else st
  { st with line_tokens := st.line_tokens ++ [r] }

/-- Function `xml_to_html_paragraphs`, reduced to its paragraph list:
keep non-empty runs, sort by (page, top, left), run the grouping loop,
flush, and drop empty paragraphs (the HTML body renders `<p>` elements
only for non-empty paragraphs). -/
def xml_to_html_paragraphs (runs : List Run) : List String :=
  let items := runs.filter (fun r => r.text ≠ "")
  let items := List.insertionSort runOrd items
  let st := items.foldl xmlStep ⟨none, none, [], [], []⟩
  let st := flushParagraph (flushLine st)
  st.paragraphs.filter (fun p => p ≠ "")

/-! ## Chunk data model

LangChain `Document` objects carry a free-form metadata dict; the keys
actually written by this repository are enumerated as optional fields
(spec §3 "closed set of known optional fields"). -/

structure Metadata where
  source_type : Option String := none
  book_title : Option String := none
  chapter : Option Int := none
  chapter_title : Option String := none
  source : Option String := none
  chunk : Option Nat := none
  slide : Option Nat := none
  course_id : Option String := none
  deck_title : Option String := none
  heading : Option String := none
  version : Option String := none
  doc_type : Option String := none
deriving DecidableEq

/-- A LangChain `Document`: one retrievable chunk. -/
structure Doc where
  page_content : String
  metadata : Metadata
deriving DecidableEq

/-! ## Helpers shared by the chunkers -/

/-- Python `str.split()` with no argument: split on whitespace runs and
drop empty tokens (auxiliary accumulator form). -/
def splitWsAux : List Char → List Char → List String
  | [], acc => if acc = [] then [] else [String.mk acc.reverse]
  | c :: cs, acc =>
    if pyWs c then
      if acc = [] then splitWsAux cs [] else String.mk acc.reverse :: splitWsAux cs []
    else splitWsAux cs (c :: acc)

/-- Python `str.split()` with no argument. -/
def pySplit (s : String) : List String :=
  splitWsAux s.data []

/-- Accumulator form of the word-window loop: `acc` holds the current
(reversed) group, `k` its remaining capacity. -/
def chunksOfAux (n : Nat) : List α → List α → Nat → List (List α)
  | [], acc, _ => if acc.isEmpty then [] else [acc.reverse]
  | a :: l, acc, 0 => acc.reverse :: chunksOfAux n l [a] (n - 1)
  | a :: l, acc, k + 1 => chunksOfAux n l (a :: acc) k

/-- Word windows `words[0:step], words[step:2*step], ...` of the Python
loop `for i in range(0, len(words), step)` (the `step = 0` case never
arises: every call site passes `max 180 _` or a positive constant). -/
def chunksOf (n : Nat) (l : List α) : List (List α) :=
  chunksOfAux n l [] n

/-- Numeric value of a run of decimal digit characters (`int(...)` on a
`(\d+)` regex group). -/
def digitsToNat (l : List Char) : Nat :=
  l.foldl (fun n c => n * 10 + (c.toNat - '0'.toNat)) 0

/-- Case-insensitive literal matcher: if the input starts with the
(lower-case) pattern, return the rest of the input. -/
def matchCI : List Char → List Char → Option (List Char)
  | [], l => some l
  | _ :: _, [] => none
  | p :: ps, c :: cs => if c.toLower = p then matchCI ps cs else none

/-- ASCII word character, the `\w` class used by the `\b` boundary. -/
def isWordCh (c : Char) : Bool :=
  c.isAlphanum || c = '_'

/-! ## Textbook chunker (`encode_corpus.py`, `html_to_textbook_docs`,
lines 46–101)

HTML elements are modelled flat, in document order; `El.text` stands for
the element's `get_text(" ", strip=True)` string (BeautifulSoup is the
opaque parsing boundary). -/

structure El where
  name : String
  text : String
deriving DecidableEq

/-- Heading tags selected by `soup.select("h1, h2, h3")`. -/
def isHeadTag (name : String) : Bool :=
  name = "h1" || name = "h2" || name = "h3"

/-- Block-level content tags collected between chapter headings. -/
def isContentTag (name : String) : Bool :=
  name = "p" || name = "li" || name = "pre" || name = "code" ||
  name = "blockquote" || name = "td" || name = "th"

/-- Matcher for `CHAPTER_RE = re.compile(r"^\s*chapter\s+(\d+)\b[:.\s]*(.*)$", re.I)`
used via `.match` (anchored at the start).  Returns the chapter number
(group 1 as an integer) and group 2 (the raw title text).  `\s`/`\w` are
modelled over ASCII; `(.*)$` fails when an interior newline remains (a
single trailing newline is allowed and excluded from group 2), matching
Python semantics without `re.DOTALL`/`re.MULTILINE`. -/
def chapterMatch (s : String) : Option (Nat × String) :=
  let l := s.data.dropWhile pyWs
  match matchCI "chapter".data l with
  | none => none
  | some r1 =>
    if (r1.takeWhile pyWs) = [] then none
    else
      let r2 := r1.dropWhile pyWs
      let digs := r2.takeWhile Char.isDigit
      if digs = [] then none
      else
        let r3 := r2.dropWhile Char.isDigit
        match r3 with
        | c :: _ => if isWordCh c then none else chapterTail (digitsToNat digs) r3
        | [] => some (digitsToNat digs, "")
where
  /-- Consume `[:.\s]*` and apply the `(.*)$` rule to what is left. -/
  chapterTail (n : Nat) (r : List Char) : Option (Nat × String) :=
    let rest := r.dropWhile (fun c => c = ':' || c = '.' || pyWs c)
    if '\n' ∈ rest then
      if rest.getLast? = some '\n' ∧ '\n' ∉ rest.dropLast then some (n, String.mk rest.dropLast)
      else none
    else some (n, String.mk rest)

/-- Chapter title rule `(m.group(2) or "").strip() or f"Chapter {ch_num}"`. -/
def chapterTitle (n : Nat) (g2 : String) : String :=
  if pyStrip g2 = "" then "Chapter " ++ toString n else pyStrip g2

/-- Inner collection loop of the `elif current:` branch: walk
`h.find_all_next()` (all elements after position `i`), stop at the next
chapter-matching heading, and keep the text of block-level content
elements. -/
def collectAfter (doc : List El) (i : Nat) : List String :=
  ((doc.drop (i + 1)).takeWhile
      (fun el => ¬(isHeadTag el.name ∧ (chapterMatch el.text).isSome))).filterMap
    (fun el => if isContentTag el.name then some el.text else none)

/-- The `for h in heads:` loop of `html_to_textbook_docs`: chapter
headings flush the previous section and open a new one; the first
non-chapter heading seen while a section is open collects the following
content and then `break`s out of the outer loop.  Returns the flushed
sections and the still-open section. -/
def tbLoop (doc : List El) :
    List (Nat × El) → Option (Nat × String × List String) → List (Nat × String × String) →
      List (Nat × String × String) × Option (Nat × String × List String)
  | [], cur, secs => (secs, cur)
  | (i, h) :: rest, cur, secs =>
    match chapterMatch h.text with
    | some (n, g2) =>
      let secs :=
        match cur with
        | some (cn, ct, ps) =>
          if ps ≠ [] then secs ++ [(cn, ct, clean_text (String.intercalate "\n" ps))] else secs
        | none => secs
      tbLoop doc rest (some (n, chapterTitle n g2, [])) secs
    | none =>
      match cur with
      | some (cn, ct, ps) => (secs, some (cn, ct, ps ++ collectAfter doc i))
      | none => tbLoop doc rest cur secs

/-- The whole-document text `soup.get_text("\n", strip=True)`: every
element's (already stripped) text, empty ones dropped, joined by
newlines. -/
def soupText (doc : List El) : String :=
  String.intercalate "\n" ((doc.map El.text).filter (fun t => t ≠ ""))

/-- Function `html_to_textbook_docs`: find chapter sections (falling back
to the whole body as "Chapter 1"), then cut each section into word
windows of `max 180 target_words` words. -/
def html_to_textbook_docs (doc : List El) (source_name : String) (book_title : String)
    (target_words : Nat := 300) : List Doc :=
  let heads := doc.enum.filter (fun p => isHeadTag p.2.name)
  let (secs, cur) := tbLoop doc heads none []
  let sections :=
    if secs = [] then
      let body := clean_text (soupText doc)
      if body ≠ "" then [(1, "Chapter 1", body)] else []
    else
      match cur with
      | some (cn, ct, ps) =>
        if ps ≠ [] then secs ++ [(cn, ct, clean_text (String.intercalate "\n" ps))] else secs
      | none => secs
  sections.flatMap (fun s =>
    let words := pySplit s.2.2
    let step := max 180 target_words
    ((chunksOf step words).enum).filterMap (fun g =>
      let piece := pyStrip (String.intercalate " " g.2)
      if piece = "" then none
      else some
        { page_content := piece
          metadata :=
            { source_type := some "textbook", book_title := some book_title,
              chapter := some (s.1 : Int), chapter_title := some s.2.1,
              source := some source_name, chunk := some g.1 } }))

/-! ## Slide chunker (`encode_corpus.py`, `html_to_slide_docs`, lines
104–129)

Only the slide-container branch (`if divs:`) is embedded: it is the
branch taken whenever containers whose id matches `^page(\d+)-div$`
exist, which is the situation the slide-ordering claim is about.  A
`DivEl` models one `<div id=...>` found by `soup.find_all("div",
id=True)`, in document order; `DivEl.text` stands for its
`get_text("\n", strip=True)` string. -/

structure DivEl where
  id : String
  text : String
deriving DecidableEq

/-- Matcher for `SLIDE_ID_PAT = re.compile(r'^page(\d+)-div$', re.I)`. -/
def parseSlideId (s : String) : Option Nat :=
  match matchCI "page".data s.data with
  | none => none
  | some r =>
    let digs := r.takeWhile Char.isDigit
    if digs = [] then none
    else
      match matchCI "-div".data (r.dropWhile Char.isDigit) with
      | some [] => some (digitsToNat digs)
      | _ => none

/-- Loop body of the slide-container branch: skip a container whose
cleaned text is empty, otherwise emit its chunk. -/
def slideDocOf (course_id deck_title source_name : String) (p : Nat × DivEl) : Option Doc :=
  let txt := clean_text p.2.text
  if txt = "" then none
  else some
    { page_content := txt
      metadata :=
        { source_type := some "slides", course_id := some course_id,
          deck_title := some deck_title, slide := some p.1,
          source := some source_name } }

/-- Slide-container branch of `html_to_slide_docs`: collect `(number,
div)` pairs for matching ids, sort them by slide number (Python's stable
`sort(key=lambda t: t[0])`), and emit one chunk per container with
non-empty cleaned text. -/
def html_to_slide_docs_slides (doc : List DivEl) (course_id deck_title source_name : String) :
    List Doc :=
  let divs := doc.filterMap (fun d => (parseSlideId d.id).map (fun n => (n, d)))
  let sorted := List.insertionSort (fun a b => a.1 ≤ b.1) divs
  sorted.filterMap (slideDocOf course_id deck_title source_name)

instance : IsTotal (Nat × DivEl) (fun a b => a.1 ≤ b.1) :=
  ⟨fun a b => Nat.le_total a.1 b.1⟩

instance : IsTrans (Nat × DivEl) (fun a b => a.1 ≤ b.1) :=
  ⟨fun _ _ _ hab hbc => Nat.le_trans hab hbc⟩

/-! ## Quiz filter parsing (`mini.py`, `parse_quiz_filters`, lines 90–112)

The scanners below implement `CH_RANGE = chapters?\s+(\d+)\s*[-–]\s*(\d+)`
and `CH_SINGLE = chapter\s+(\d+)\b` under `re.search` on the lowercased
input.  Greedy repetition needs no backtracking here: a shortened `\d+`
is always followed by another digit (a word character, never matching
`\s*[-–]` or `\b`), and a shortened `\s+`/`\s*` is always followed by
whitespace.  `\s`/`\d`/`\w` are modelled over ASCII. -/

/-- Exact literal matcher: if the input starts with the pattern, return
the rest of the input. -/
def matchLit : List Char → List Char → Option (List Char)
  | [], l => some l
  | _ :: _, [] => none
  | p :: ps, c :: cs => if c = p then matchLit ps cs else none

/-- Substring test (Python `pat in s`). -/
def containsSub (pat : List Char) : List Char → Bool
  | [] => decide (pat = [])
  | l@(_ :: cs) => pat.isPrefixOf l || containsSub pat cs

/-- Continuation of `CH_RANGE` after the literal `chapters?`:
`\s+(\d+)\s*[-–]\s*(\d+)`. -/
def rangeTail (r : List Char) : Option (Nat × Nat) :=
  if r.takeWhile pyWs = [] then none
  else
    let r1 := r.dropWhile pyWs
    let d1 := r1.takeWhile Char.isDigit
    if d1 = [] then none
    else
      let r2 := (r1.dropWhile Char.isDigit).dropWhile pyWs
      match r2 with
      | c :: r3 =>
        if c = '-' ∨ c = '–' then
          let d2 := (r3.dropWhile pyWs).takeWhile Char.isDigit
          if d2 = [] then none else some (digitsToNat d1, digitsToNat d2)
        else none
      | [] => none

/-- Match of `CH_RANGE` anchored at the current position; the optional
`s` of `chapters?` is tried greedily (with, then without). -/
def matchRangeAt (l : List Char) : Option (Nat × Nat) :=
  match matchLit "chapter".data l with
  | none => none
  | some r =>
    match r with
    | 's' :: r' =>
      match rangeTail r' with
      | some ab => some ab
      | none => rangeTail r
    | _ => rangeTail r

/-- Leftmost `re.search` for `CH_RANGE`. -/
def searchRange : List Char → Option (Nat × Nat)
  | [] => none
  | l@(_ :: cs) =>
    match matchRangeAt l with
    | some ab => some ab
    | none => searchRange cs

/-- Match of `CH_SINGLE = chapter\s+(\d+)\b` anchored at the current
position. -/
def matchSingleAt (l : List Char) : Option Nat :=
  match matchLit "chapter".data l with
  | none => none
  | some r =>
    if r.takeWhile pyWs = [] then none
    else
      let r1 := r.dropWhile pyWs
      let d1 := r1.takeWhile Char.isDigit
      if d1 = [] then none
      else
        match r1.dropWhile Char.isDigit with
        | c :: _ => if isWordCh c then none else some (digitsToNat d1)
        | [] => some (digitsToNat d1)

/-- Leftmost `re.search` for `CH_SINGLE`. -/
def searchSingle : List Char → Option Nat
  | [] => none
  | l@(_ :: cs) =>
    match matchSingleAt l with
    | some n => some n
    | none => searchSingle cs

/-- Result of `parse_quiz_filters`.  The Python `set` of chapter numbers
is modelled by the (duplicate-free) list the building loop produces;
only membership and emptiness of the set are ever consumed. -/
structure QuizFilters where
  book : Option String
  chapters : List ℤ
deriving DecidableEq

/-- Chapter-set half of `parse_quiz_filters`: a range match populates
the set via `for c in range(min(a,b), max(a,b)+1): chapters.add(c)`,
otherwise a single-chapter match adds one entry. -/
def quizChapters (tl : List Char) : List ℤ :=
  match searchRange tl with
  | some (a, b) => (List.range' (min a b) (max a b + 1 - min a b)).map Int.ofNat
  | none =>
    match searchSingle tl with
    | some c => [(c : ℤ)]
    | none => []

/-- Function `parse_quiz_filters`: crude book detection by keyword
substrings, then the chapter range/single patterns. -/
def parse_quiz_filters (text : String) : QuizFilters :=
  let tl := text.data.map Char.toLower
  let book :=
    if containsSub "algorithm".data tl || containsSub "goodrich".data tl ||
        containsSub "tamassia".data tl then some "algorithms"
    else if containsSub "discrete".data tl || containsSub "combinator".data tl then
      some "discrete"
    else none
  ⟨book, quizChapters tl⟩

/-! ## Subset materialization and the dense subset retriever (`mini.py`,
`subset_docs` lines 114–127 and `build_hybrid_retriever_for_subset`
lines 130–156) -/

/-- Filter predicate `ok(d)` of `subset_docs`. -/
def subsetOk (book : Option String) (chapters : List ℤ) (d : Doc) : Bool :=
  let m := d.metadata
  let bookOk :=
    match book with
    | some b =>
      let bt := (m.book_title.getD "").data.map Char.toLower
      if b = "algorithms" ∧ ¬containsSub "algorithm".data bt ∧
          ¬containsSub "goodrich".data bt ∧ ¬containsSub "tamassia".data bt then false
      else if b = "discrete" ∧ ¬containsSub "discrete".data bt ∧
          ¬containsSub "combinatorial".data bt then false
      else true
    | none => true
  let chapOk :=
    if chapters ≠ [] then
      decide (m.source_type = some "textbook") && decide (m.chapter.getD (-1) ∈ chapters)
    else true
  bookOk && chapOk

/-- Function `subset_docs`: materialize `[d for d in all_docs if ok(d)]`. -/
def subset_docs (all_docs : List Doc) (book : Option String) (chapters : List ℤ) : List Doc :=
  all_docs.filter (subsetOk book chapters)

/-- Chunk identity key `meta_key(d) = (source, chunk, slide, chapter)`
(`m.get` returns `None` for absent keys). -/
abbrev MetaKey := Option String × Option Nat × Option Nat × Option Int

/-- Identity key of a chunk, as computed inside
`build_hybrid_retriever_for_subset`. -/
def meta_key (d : Doc) : MetaKey :=
  (d.metadata.source, d.metadata.chunk, d.metadata.slide, d.metadata.chapter)

/-- The set `subset_keys = {meta_key(d) for d in subset}` (membership in
the Python set is modelled by list membership). -/
def subset_keys (subset : List Doc) : List MetaKey :=
  subset.map meta_key

/-- Method `DenseSubsetRetriever._get_relevant_documents`: over-fetch
`max(12, 3*self.k)` hits from the full vector index (`similarity_search`
is the opaque FAISS boundary), keep hits whose identity key is in the
subset key set, truncate to `self.k`. -/
def denseSubsetRetrieve (similarity_search : String → Nat → List Doc)
    (keys : List MetaKey) (k : Nat) (query : String) : List Doc :=
  let hits := similarity_search query (max 12 (3 * k))
  let kept := hits.filter (fun h => decide (meta_key h ∈ keys))
  kept.take k

/-- Dense side of `build_hybrid_retriever_for_subset`: the retriever is
constructed with `k = max(8, k)`.  (The BM25 side — built over the
subset with `bm25.k = max(8, k)` — and the `EnsembleRetriever`
combination are external LangChain components, opaque here.) -/
def build_hybrid_dense (similarity_search : String → Nat → List Doc)
    (subset : List Doc) (k : Nat) : String → List Doc :=
  denseSubsetRetrieve similarity_search (subset_keys subset) (max 8 k)

/-! ## Manifest change detection (`ingest_slides_html.py`, `main`,
lines 150–172) and index build (lines 181–188; `encode_corpus.py`,
`main`, lines 180–224; `encoding_html_to_faiss.py`, `main`,
lines 143–172)

Files are modelled as `(name, sha1)` pairs — the hash is the opaque
output of `file_sha1` on the file's current bytes; `old_files` is the
`files` table of the manifest found next to the index (empty when the
index directory or the manifest is missing or unparsable).  The
persisted FAISS index is modelled by the list of documents it stores
(`none` = no `index.faiss` at the location). -/

/-- Selection of files to (re-)chunk in `ingest_slides_html.main`: a
`--fresh` run removes the index directory first; a file is selected when
the index is gone or its recorded hash differs from its current hash;
when the index is gone or `--fresh` is set, every file is selected. -/
def ingest_to_ingest (index_exists fresh : Bool) (old_files : List (String × String))
    (htmls : List (String × String)) : List (String × String) :=
  let idx_exists := index_exists && !fresh
  let sel := htmls.filter
    (fun p => !idx_exists || decide (List.lookup p.1 old_files ≠ some p.2))
  if !idx_exists || fresh then htmls else sel

/-- Index build step of `ingest_slides_html.main` (lines 181–188): on an
existing index, append `all_docs` when non-empty; otherwise create the
index from `all_docs or [Document(page_content="", metadata={})]` — an
empty ingest seeds the index with one empty placeholder document. -/
def ingest_build (index_exists : Bool) (stored : List Doc) (all_docs : List Doc) : List Doc :=
  if index_exists then
    if all_docs ≠ [] then stored ++ all_docs else stored
  else if all_docs = [] then [{ page_content := "", metadata := {} }]
  else all_docs

/-- Files whose chunks `encoding_html_to_faiss.main` builds and embeds
(lines 143–149): every discovered HTML file, on every run — the manifest
is written at the end (line 172) but never read, so this entry point has
no change detection at all. -/
def faiss_files_processed (_index_exists : Bool) (_old_files : List (String × String))
    (htmls : List (String × String)) : List (String × String) :=
  htmls

/-- Index build of `encode_corpus.main` (lines 208–221): batched
appends to an existing index, or creation from the first batch followed
by batched appends of the rest (`BATCH = 64`). -/
def encode_corpus_build (stored : Option (List Doc)) (all_docs : List Doc) : List Doc :=
  match stored with
  | some old => (chunksOf 64 all_docs).foldl (fun vs b => vs ++ b) old
  | none => (chunksOf 64 (all_docs.drop 64)).foldl (fun vs b => vs ++ b) (all_docs.take 64)

/-- Tail of `encode_corpus.main` (lines 180–221) as a state transformer
on the persisted index: `--fresh` destroys the index location, then the
empty-corpus guard `raise SystemExit("No documents to index.")` runs
before any index write.  Returns the raised error (if any) and the index
contents afterwards. -/
def encode_corpus_main (fresh : Bool) (stored : Option (List Doc)) (all_docs : List Doc) :
    Option String × Option (List Doc) :=
  let stored := if fresh then none else stored
  if all_docs = [] then (some "No documents to index.", stored)
  else (none, some (encode_corpus_build stored all_docs))

/-! ## Spec-side helpers and fixtures -/

/-- Slide numbers carried by a chunk list, in order. -/
def slideNums (docs : List Doc) : List Nat :=
  docs.filterMap (fun d => d.metadata.slide)

/-- Boolean test that a list of naturals is weakly ascending. -/
def isAscNat : List Nat → Bool
  | a :: b :: t => a ≤ b && isAscNat (b :: t)
  | _ => true

/-- Cascade environment fixture: every text method unavailable or
failed, page-image fallback succeeds. -/
def cascadeEnvImages : CascadeEnv :=
  { pages := 1, pdftotext_layout := none, pdftotext_default := none, pdftotext_raw := none,
    mutool_available := false, mutool_text := none, pdfminer_text := none,
    xml_ok := false, xml_rebuilt := "", enable_ocr := false, ocr_available := false,
    ocr_ok := false, ocr_text := none, pageimages_ok := true }

/-- Cascade environment fixture: the three `pdftotext` variants fail,
`mutool` is unavailable, and `pdfminer` yields 200 characters on a
one-page document (not low-yield). -/
def cascadeEnvMiner : CascadeEnv :=
  { pages := 1, pdftotext_layout := none, pdftotext_default := none, pdftotext_raw := none,
    mutool_available := false, mutool_text := none,
    pdfminer_text := some (String.mk (List.replicate 200 'a')),
    xml_ok := false, xml_rebuilt := "", enable_ocr := false, ocr_available := false,
    ocr_ok := false, ocr_text := none, pageimages_ok := true }

/-- A concrete textbook chunk used as a test fixture. -/
def c1doc : Doc :=
  { page_content := "binary search trees"
    metadata :=
      { source_type := some "textbook", book_title := some "Algorithms (Goodrich & Tamassia)",
        chapter := some 3, chapter_title := some "Trees", source := some "algorithms.html",
        chunk := some 0 } }

/-! # Claim theorems -/

/-- C2: for `page_count > 0` and non-empty text, `is_low_yield(text,
page_count)` is true iff `len(text) / page_count` is strictly below the
threshold of 200 characters per page (stated multiplicatively, which is
equivalent for a positive denominator); for `page_count ≤ 0` or empty
text it is always true. -/
theorem C2_low_yield_policy (text : String) (pages : Int) :
    (0 < pages → text ≠ "" →
      (is_low_yield text pages = true ↔
        (text.length : ℚ) / (pages : ℚ) < 200)) ∧
    (pages ≤ 0 ∨ text = "" → is_low_yield text pages = true) := by
  constructor
  · intro hp ht
    have hcond : (text = "" || pages ≤ 0) = false := by
      simp [ht, not_le.mpr hp]
    rw [is_low_yield, hcond, if_neg Bool.false_ne_true, decide_eq_true_iff]
    have hmax : max 1 pages = pages := max_eq_right hp
    rw [hmax, div_lt_iff₀ (by exact_mod_cast hp)]
    constructor
    · intro h; exact_mod_cast h
    · intro h; exact_mod_cast h
  · intro h
    have hcond : (text = "" || pages ≤ 0) = true := by
      rcases h with h | h <;> simp [h]
    rw [is_low_yield, hcond, if_pos rfl]

/-- Witness for C2 at concrete inputs: 3 characters over 2 pages is
low-yield, and any text with page count 0 is low-yield. -/
theorem C2_low_yield_policy_witness :
    is_low_yield "abc" 2 = true ∧ is_low_yield "abc" 0 = true :=
  ⟨((C2_low_yield_policy "abc" 2).1 (by decide) (by decide)).mpr
      (by have h3 : "abc".length = 3 := rfl; rw [h3]; norm_num),
   (C2_low_yield_policy "abc" 0).2 (Or.inl (by decide))⟩

/-- C4: paragraph reconstruction sorts runs by (page, top, left), groups
lines with tolerance 6 (re-sorting each line horizontally and joining
with spaces), breaks paragraphs on jumps beyond 18 or page changes, and
drops empty paragraphs; on the runs
`[(1,100,50,"B"), (1,100,10,"A"), (1,130,10,"C")]` the paragraphs are
`["A B", "C"]`, and no output paragraph is ever the empty string. -/
theorem C4_xml_paragraph_reconstruction :
    xml_to_html_paragraphs
        [⟨1, 100, 50, "B"⟩, ⟨1, 100, 10, "A"⟩, ⟨1, 130, 10, "C"⟩] = ["A B", "C"] ∧
    ∀ runs : List Run, (xml_to_html_paragraphs runs).count "" = 0 := by
  refine ⟨by decide, fun runs => ?_⟩
  rw [List.count_eq_zero]
  intro hmem
  have := (List.mem_filter.mp hmem).2
  simp at this

/-- C5: on the failing document with headings "Chapter 1: Intro" and
"Chapter 2" and a paragraph after each, the chunker does NOT produce the
claimed per-chapter chunks: the unconditional `break` in its heading
loop (and the flush order) prevents any section from accumulating, so it
always falls through to the whole-body fallback — a single chunk labelled
chapter 1, "Chapter 1", containing the entire document text. -/
theorem C5_textbook_chapter_bug :
    (html_to_textbook_docs
        [⟨"h1", "Chapter 1: Intro"⟩, ⟨"p", "one two"⟩, ⟨"h1", "Chapter 2"⟩, ⟨"p", "three four"⟩]
        "book.html" "Algorithms").map
      (fun d => (d.metadata.chapter, d.metadata.chapter_title, d.page_content)) =
      [(some 1, some "Chapter 1", "Chapter 1: Intro one two Chapter 2 three four")] := by
  decide

/-- C9: when the range pattern `chapters a-b` is found, the chapter set
is the inclusive integer interval from `min a b` to `max a b` — in
particular the reversed range "chapters 5-3" yields {3,4,5} — and when
no chapter pattern occurs the chapter set is empty. -/
theorem C9_quiz_filter_chapters :
    (∀ (text : String) (a b : Nat),
        searchRange (text.data.map Char.toLower) = some (a, b) →
          ∀ c : ℤ, c ∈ (parse_quiz_filters text).chapters ↔
            ((min a b : Nat) : ℤ) ≤ c ∧ c ≤ ((max a b : Nat) : ℤ)) ∧
    (parse_quiz_filters "chapters 5-3").chapters = [3, 4, 5] ∧
    (∀ text : String,
        searchRange (text.data.map Char.toLower) = none →
          searchSingle (text.data.map Char.toLower) = none →
          (parse_quiz_filters text).chapters = []) := by
  refine ⟨fun text a b h c => ?_, by decide, fun text h1 h2 => ?_⟩
  · have hch : (parse_quiz_filters text).chapters = quizChapters (text.data.map Char.toLower) := rfl
    rw [hch]
    unfold quizChapters
    rw [h]
    simp only [List.mem_map, List.mem_range', Int.ofNat_eq_natCast]
    constructor
    · rintro ⟨n, ⟨i, hi, rfl⟩, rfl⟩
      have h1 : min a b ≤ min a b + 1 * i := by omega
      have h2 : min a b + 1 * i ≤ max a b := by omega
      exact ⟨by exact_mod_cast h1, by exact_mod_cast h2⟩
    · rintro ⟨h1, h2⟩
      have hc0 : 0 ≤ c := le_trans (by exact_mod_cast Nat.zero_le (min a b)) h1
      obtain ⟨n, rfl⟩ := Int.eq_ofNat_of_zero_le hc0
      have h1n : min a b ≤ n := by exact_mod_cast h1
      have h2n : n ≤ max a b := by exact_mod_cast h2
      exact ⟨n, ⟨n - min a b, by omega, by omega⟩, rfl⟩
  · have hch : (parse_quiz_filters text).chapters = quizChapters (text.data.map Char.toLower) := rfl
    rw [hch]
    unfold quizChapters
    rw [h1, h2]

/-- Witness for C9 at a concrete range input and a concrete no-pattern
input. -/
theorem C9_quiz_filter_chapters_witness :
    ((4 : ℤ) ∈ (parse_quiz_filters "chapters 5-3").chapters ↔
      ((min 5 3 : Nat) : ℤ) ≤ 4 ∧ (4 : ℤ) ≤ ((max 5 3 : Nat) : ℤ)) ∧
    (parse_quiz_filters "tell me about trees").chapters = [] :=
  ⟨C9_quiz_filter_chapters.1 "chapters 5-3" 5 3 (by decide) 4,
   C9_quiz_filter_chapters.2.2 "tell me about trees" (by decide) (by decide)⟩

/-- C7 counterexample: `encoding_html_to_faiss.py` — one of the two
ingestion entry points the claim covers — performs no change detection:
with an existing index whose manifest records exactly the file's current
hash, the file is still among the files that get re-chunked and
re-embedded, contradicting "every source file whose recorded content
hash equals its current hash is skipped entirely". -/
theorem C7_faiss_no_change_detection :
    ("a.html", "h1") ∈ faiss_files_processed true [("a.html", "h1")] [("a.html", "h1")] := by
  decide

/-- C7 (amended): in `ingest_slides_html.py`, against an existing index
(`--fresh` not set), a file whose recorded hash equals its current hash
is not re-ingested, a file whose hash changed is re-ingested, and with
the `--fresh` flag every file is re-ingested. -/
theorem C7_manifest_change_detection (old_files htmls : List (String × String))
    (p : String × String) :
    (p ∈ htmls → List.lookup p.1 old_files = some p.2 →
      p ∉ ingest_to_ingest true false old_files htmls) ∧
    (p ∈ htmls → List.lookup p.1 old_files ≠ some p.2 →
      p ∈ ingest_to_ingest true false old_files htmls) ∧
    (∀ idx : Bool, ingest_to_ingest idx true old_files htmls = htmls) := by
  refine ⟨fun hp hsha => ?_, fun hp hsha => ?_, fun idx => ?_⟩
  · unfold ingest_to_ingest
    simp only [Bool.and_self, Bool.not_false, Bool.and_true, Bool.not_true, Bool.false_or,
      if_false]
    intro hmem
    have := (List.mem_filter.mp hmem).2
    simp [hsha] at this
  · unfold ingest_to_ingest
    simp only [Bool.and_self, Bool.not_false, Bool.and_true, Bool.not_true, Bool.false_or,
      if_false]
    exact List.mem_filter.mpr ⟨hp, by simp [hsha]⟩
  · unfold ingest_to_ingest
    simp

/-- Witness for C7 (amended): the unchanged file `a.html` is skipped,
the changed file `b.html` is re-ingested. -/
theorem C7_manifest_change_detection_witness :
    ("a.html", "h1") ∉ ingest_to_ingest true false [("a.html", "h1"), ("b.html", "h2")]
        [("a.html", "h1"), ("b.html", "h3")] ∧
    ("b.html", "h3") ∈ ingest_to_ingest true false [("a.html", "h1"), ("b.html", "h2")]
        [("a.html", "h1"), ("b.html", "h3")] :=
  ⟨(C7_manifest_change_detection [("a.html", "h1"), ("b.html", "h2")]
      [("a.html", "h1"), ("b.html", "h3")] ("a.html", "h1")).1 (by decide) (by decide),
   (C7_manifest_change_detection [("a.html", "h1"), ("b.html", "h2")]
      [("a.html", "h1"), ("b.html", "h3")] ("b.html", "h3")).2.1 (by decide) (by decide)⟩

/-- C8 counterexample: `ingest_slides_html.py` — one of the two build
sites the claim covers — does not raise on zero chunks: a fresh build
with zero chunks creates the index seeded with one empty placeholder
document, so the index location does not remain absent. -/
theorem C8_ingest_placeholder_on_empty :
    ingest_build false [] [] = [{ page_content := "", metadata := {} }] := by
  decide

/-- C8 (amended): `encode_corpus.py` raises the empty-corpus error
`SystemExit("No documents to index.")` on zero chunks before writing any
index data, leaving the persisted index contents unchanged (destroyed
beforehand only if `--fresh` was given); `ingest_slides_html.py` instead
creates, on a fresh build with zero chunks, an index containing a single
empty placeholder document. -/
theorem C8_empty_corpus_build (fresh : Bool) (stored : Option (List Doc)) :
    encode_corpus_main fresh stored [] =
      (some "No documents to index.", if fresh then none else stored) ∧
    ingest_build false [] [] = [{ page_content := "", metadata := {} }] := by
  constructor
  · unfold encode_corpus_main
    simp
  · decide

/-- C1 counterexample: with the repository's own `k = TOP_K = 6`, the
dense subset retriever is constructed with `k = max(8, 6) = 8` and
truncates to 8, not to the requested 6; when the vector index returns
eight hits carrying the subset's identity key, all eight are returned —
more than the requested `k` and more than the subset size (here 1). -/
theorem C1_dense_overcount :
    6 < (build_hybrid_dense (fun _ _ => List.replicate 8 c1doc)
        (subset_docs [c1doc] none []) 6 "q").length ∧
    (subset_docs [c1doc] none []).length <
      (build_hybrid_dense (fun _ _ => List.replicate 8 c1doc)
        (subset_docs [c1doc] none []) 6 "q").length := by
  decide

/-- C1 (amended): for every vector-search function, corpus, filter
predicate (book/chapter constraints) and query, every chunk returned by
the dense subset retriever carries an identity key of the materialized
subset; the result count is at most the effective count `max 8 k` (not
the requested `k`), and at most the number of over-fetched candidates
`max 12 (3 * max 8 k)` returned by the full vector index. -/
theorem C1_dense_subset_retriever (search : String → Nat → List Doc) (all_docs : List Doc)
    (book : Option String) (chapters : List ℤ) (k : Nat) (q : String) :
    (∀ d ∈ build_hybrid_dense search (subset_docs all_docs book chapters) k q,
        meta_key d ∈ subset_keys (subset_docs all_docs book chapters)) ∧
    (build_hybrid_dense search (subset_docs all_docs book chapters) k q).length ≤ max 8 k ∧
    (build_hybrid_dense search (subset_docs all_docs book chapters) k q).length ≤
      (search q (max 12 (3 * max 8 k))).length := by
  unfold build_hybrid_dense denseSubsetRetrieve
  refine ⟨fun d hd => ?_, ?_, ?_⟩
  · have h1 := List.take_subset _ _ hd
    exact of_decide_eq_true (List.mem_filter.mp h1).2
  · exact List.length_take_le _ _
  · calc (List.take (max 8 k) _).length ≤ (List.filter _ _).length := by
          rw [List.length_take]; exact min_le_right _ _
      _ ≤ _ := List.length_filter_le _ _

/-- Witness for C1 (amended) at a concrete corpus, subset and search
function. -/
theorem C1_dense_subset_retriever_witness :
    meta_key c1doc ∈ subset_keys (subset_docs [c1doc] none []) ∧
    (build_hybrid_dense (fun _ _ => [c1doc]) (subset_docs [c1doc] none []) 6 "q").length ≤
      max 8 6 :=
  ⟨(C1_dense_subset_retriever (fun _ _ => [c1doc]) [c1doc] none [] 6 "q").1 c1doc (by decide),
   (C1_dense_subset_retriever (fun _ _ => [c1doc]) [c1doc] none [] 6 "q").2.1⟩

/-- Helper: a weakly ascending chain test follows from pairwise `≤`. -/
theorem isAscNat_of_pairwise : ∀ {l : List Nat}, l.Pairwise (· ≤ ·) → isAscNat l = true
  | [], _ => rfl
  | [_], _ => rfl
  | a :: b :: t, h => by
    rw [List.pairwise_cons] at h
    have hrest : isAscNat (b :: t) = true := isAscNat_of_pairwise h.2
    unfold isAscNat
    simp [hrest, h.1 b (List.mem_cons_self b t)]

/-- Helper: slide numbers of the emitted chunks are the numbers of the
containers with non-empty cleaned text, in order. -/
theorem slideNums_filterMap_slideDocOf (cid dt sn : String) :
    ∀ l : List (Nat × DivEl),
      slideNums (l.filterMap (slideDocOf cid dt sn)) =
        (l.filter (fun p => clean_text p.2.text ≠ "")).map Prod.fst
  | [] => rfl
  | p :: t => by
    have ih := slideNums_filterMap_slideDocOf cid dt sn t
    by_cases h : clean_text p.2.text = "" <;>
      simp [slideNums, slideDocOf, List.filterMap_cons, List.filter_cons, h] <;>
      simpa [slideNums] using ih

/-- Helper: one emitted chunk per container with non-empty cleaned text. -/
theorem length_filterMap_slideDocOf (cid dt sn : String) :
    ∀ l : List (Nat × DivEl),
      (l.filterMap (slideDocOf cid dt sn)).length =
        (l.filter (fun p => clean_text p.2.text ≠ "")).length
  | [] => rfl
  | p :: t => by
    have ih := length_filterMap_slideDocOf cid dt sn t
    by_cases h : clean_text p.2.text = "" <;>
      simp [slideDocOf, List.filterMap_cons, List.filter_cons, h, ih]

/-- C6: the slide chunker emits one chunk per non-empty slide container
and orders chunks by ascending parsed slide number regardless of
document order; in particular containers `page3-div`, `page1-div`,
`page2-div` (in that document order) yield slides 1, 2, 3 in that
order. -/
theorem C6_slide_ordering :
    slideNums (html_to_slide_docs_slides
        [⟨"page3-div", "t3"⟩, ⟨"page1-div", "t1"⟩, ⟨"page2-div", "t2"⟩]
        "C" "deck" "s.html") = [1, 2, 3] ∧
    ∀ (doc : List DivEl) (cid dt sn : String),
      isAscNat (slideNums (html_to_slide_docs_slides doc cid dt sn)) = true ∧
      (html_to_slide_docs_slides doc cid dt sn).length =
        ((doc.filterMap (fun d => (parseSlideId d.id).map (fun n => (n, d)))).filter
          (fun p => clean_text p.2.text ≠ "")).length := by
  refine ⟨by decide, fun doc cid dt sn => ?_⟩
  unfold html_to_slide_docs_slides
  set divs := doc.filterMap (fun d => (parseSlideId d.id).map (fun n => (n, d))) with hdivs
  set r := fun a b : Nat × DivEl => a.1 ≤ b.1 with hr
  have hsorted : (List.insertionSort r divs).Pairwise r := List.sorted_insertionSort r divs
  constructor
  · rw [slideNums_filterMap_slideDocOf]
    apply isAscNat_of_pairwise
    rw [List.pairwise_map]
    exact hsorted.sublist (List.filter_sublist _)
  · rw [length_filterMap_slideDocOf]
    exact ((List.perm_insertionSort r divs).filter _).length_eq

/-- C3: the cascade tries its methods in the fixed order (pdftotext
layout, default, raw; mutool; pdfminer; positional XML; OCR; page
images) and returns the output of the first method that is available,
succeeds and passes its low-yield test: every earlier step was skipped,
failed, or empty/low-yield (`stepText e j = none`); a text method that
wins carries exactly its accepted text; the page-image last resort runs
only when its own invocation succeeds, and the failure result only when
it does not. -/
theorem C3_cascade_first_acceptance (e : CascadeEnv) :
    (∀ j, j < methodRank (convert_pdf_to_html_text_first e) → stepText e j = none) ∧
    (methodRank (convert_pdf_to_html_text_first e) < 7 →
      stepText e (methodRank (convert_pdf_to_html_text_first e)) =
        resultText (convert_pdf_to_html_text_first e) ∧
      resultText (convert_pdf_to_html_text_first e) ≠ none) ∧
    (methodRank (convert_pdf_to_html_text_first e) = 7 → e.pageimages_ok = true) ∧
    (methodRank (convert_pdf_to_html_text_first e) = 8 → e.pageimages_ok = false) := by
  unfold convert_pdf_to_html_text_first
  rcases h0 : stepText e 0 with _ | t0
  case some =>
    exact ⟨fun j hj => absurd hj (Nat.not_lt_zero j), fun _ => ⟨h0, Option.some_ne_none t0⟩,
      fun h => by simp [methodRank] at h, fun h => by simp [methodRank] at h⟩
  rcases h1 : stepText e 1 with _ | t1
  case some =>
    exact ⟨fun j hj => by have hj' : j < 1 := hj; interval_cases j; assumption,
      fun _ => ⟨h1, Option.some_ne_none t1⟩,
      fun h => by simp [methodRank] at h, fun h => by simp [methodRank] at h⟩
  rcases h2 : stepText e 2 with _ | t2
  case some =>
    exact ⟨fun j hj => by have hj' : j < 2 := hj; interval_cases j <;> assumption,
      fun _ => ⟨h2, Option.some_ne_none t2⟩,
      fun h => by simp [methodRank] at h, fun h => by simp [methodRank] at h⟩
  rcases h3 : stepText e 3 with _ | t3
  case some =>
    exact ⟨fun j hj => by have hj' : j < 3 := hj; interval_cases j <;> assumption,
      fun _ => ⟨h3, Option.some_ne_none t3⟩,
      fun h => by simp [methodRank] at h, fun h => by simp [methodRank] at h⟩
  rcases h4 : stepText e 4 with _ | t4
  case some =>
    exact ⟨fun j hj => by have hj' : j < 4 := hj; interval_cases j <;> assumption,
      fun _ => ⟨h4, Option.some_ne_none t4⟩,
      fun h => by simp [methodRank] at h, fun h => by simp [methodRank] at h⟩
  rcases h5 : stepText e 5 with _ | t5
  case some =>
    exact ⟨fun j hj => by have hj' : j < 5 := hj; interval_cases j <;> assumption,
      fun _ => ⟨h5, Option.some_ne_none t5⟩,
      fun h => by simp [methodRank] at h, fun h => by simp [methodRank] at h⟩
  rcases h6 : stepText e 6 with _ | t6
  case some =>
    exact ⟨fun j hj => by have hj' : j < 6 := hj; interval_cases j <;> assumption,
      fun _ => ⟨h6, Option.some_ne_none t6⟩,
      fun h => by simp [methodRank] at h, fun h => by simp [methodRank] at h⟩
  rcases h7 : e.pageimages_ok with _ | _
  · exact ⟨fun j hj => by have hj' : j < 8 := hj; interval_cases j <;> first | assumption | rfl,
      fun h => by simp [methodRank] at h, fun h => by simp [methodRank] at h, fun _ => rfl⟩
  · exact ⟨fun j hj => by have hj' : j < 7 := hj; interval_cases j <;> assumption,
      fun h => by simp [methodRank] at h, fun _ => rfl, fun h => by simp [methodRank] at h⟩

/-! ### Lemmas about the `clean_text` pipeline (for C10) -/

/-- A non-space head does not participate in a double-space. -/
theorem hasDouble_cons_of_ne {a : Char} (h : a ≠ ' ') (t : List Char) :
    hasDoubleSpace (a :: t) = hasDoubleSpace t := by
  cases t with
  | nil => rfl
  | cons b t' =>
    show (decide (a = ' ') && decide (b = ' ') || hasDoubleSpace (b :: t')) =
      hasDoubleSpace (b :: t')
    simp [h]

/-- Tails of double-space-free lists are double-space-free. -/
theorem hasDouble_cons_false {a : Char} {t : List Char}
    (h : hasDoubleSpace (a :: t) = false) : hasDoubleSpace t = false := by
  cases t with
  | nil => rfl
  | cons b t' =>
    unfold hasDoubleSpace at h
    exact (Bool.or_eq_false_iff.mp h).2

/-- After a space in a double-space-free list, the next character is not
a space. -/
theorem head_ne_space_of_hasDouble_false {t : List Char}
    (h : hasDoubleSpace (' ' :: t) = false) : ∀ c, t.head? = some c → c ≠ ' ' := by
  intro c hc heq
  subst heq
  cases t with
  | nil => simp at hc
  | cons b t' =>
    obtain rfl : b = ' ' := by simpa using hc
    have : (decide (' ' = ' ') && decide (' ' = ' ') || hasDoubleSpace (' ' :: t')) = false := h
    simp at this

/-- Characters of `collapseSTAux` output are the replacement space or
input characters. -/
theorem mem_collapseSTAux {c : Char} :
    ∀ (b : Bool) (l : List Char), c ∈ collapseSTAux b l → c = ' ' ∨ c ∈ l := by
  intro b l
  induction l generalizing b with
  | nil => intro h; cases h
  | cons a t ih =>
    intro h
    unfold collapseSTAux at h
    by_cases ha : isSpaceTab a
    · rw [if_pos ha] at h
      by_cases hb : b
      · subst hb; rw [if_pos rfl] at h
        rcases ih true h with h' | h' <;> simp [h']
      · simp only [hb, if_false] at h
        rcases List.mem_cons.mp h with h' | h'
        · exact Or.inl h'
        · rcases ih true h' with h'' | h'' <;> simp [h'']
    · rw [if_neg ha] at h
      rcases List.mem_cons.mp h with h' | h'
      · simp [h']
      · rcases ih false h' with h'' | h'' <;> simp [h'']

/-- No tab survives the space/tab collapse. -/
theorem tab_not_mem_collapseSTAux :
    ∀ (b : Bool) (l : List Char), '\t' ∉ collapseSTAux b l := by
  intro b l
  induction l generalizing b with
  | nil => intro h; cases h
  | cons a t ih =>
    intro h
    unfold collapseSTAux at h
    by_cases ha : isSpaceTab a
    · rw [if_pos ha] at h
      by_cases hb : b
      · subst hb; rw [if_pos rfl] at h; exact ih true h
      · simp only [hb, if_false] at h
        rcases List.mem_cons.mp h with h' | h'
        · exact absurd h' (by decide)
        · exact ih true h'
    · rw [if_neg ha] at h
      rcases List.mem_cons.mp h with h' | h'
      · subst h'; exact ha (by decide)
      · exact ih false h'

/-- Inside a run (`inRun = true`), the next emitted character is not a
space or tab. -/
theorem head_collapseSTAux_true :
    ∀ (l : List Char) (c : Char), (collapseSTAux true l).head? = some c →
      isSpaceTab c = false := by
  intro l
  induction l with
  | nil => intro c h; simp [collapseSTAux] at h
  | cons a t ih =>
    intro c h
    unfold collapseSTAux at h
    by_cases ha : isSpaceTab a
    · rw [if_pos ha, if_pos rfl] at h
      exact ih c h
    · rw [if_neg ha] at h
      obtain rfl : a = c := by simpa using h
      exact Bool.of_not_eq_true ha

/-- The space/tab collapse never emits two consecutive spaces. -/
theorem hasDouble_collapseSTAux :
    ∀ (l : List Char) (b : Bool), hasDoubleSpace (collapseSTAux b l) = false := by
  intro l
  induction l with
  | nil => intro b; rfl
  | cons a t ih =>
    intro b
    unfold collapseSTAux
    by_cases ha : isSpaceTab a
    · rw [if_pos ha]
      by_cases hb : b
      · subst hb; rw [if_pos rfl]; exact ih true
      · simp only [hb, if_false]
        rcases hX : collapseSTAux true t with _ | ⟨x, xs⟩
        · rfl
        · have hxst : isSpaceTab x = false := head_collapseSTAux_true t x (by rw [hX]; rfl)
          have hx' : x ≠ ' ' := by
            intro hcon; rw [hcon] at hxst; exact absurd hxst (by decide)
          have hrec : hasDoubleSpace (x :: xs) = false := by
            have := ih true; rwa [hX] at this
          show (decide (' ' = ' ') && decide (x = ' ') || hasDoubleSpace (x :: xs)) = false
          simp [hx', hrec]
    · rw [if_neg ha]
      have ha' : a ≠ ' ' := by
        intro hcon; subst hcon; exact ha (by decide)
      rw [hasDouble_cons_of_ne ha']
      exact ih false

/-- The newline collapse only keeps input characters. -/
theorem mem_collapseNlAux {c : Char} :
    ∀ (s : Nat) (l : List Char), c ∈ collapseNlAux s l → c ∈ l := by
  intro s l
  induction l generalizing s with
  | nil => intro h; cases h
  | cons a t ih =>
    intro h
    unfold collapseNlAux at h
    by_cases ha : a = '\n'
    · rw [if_pos ha] at h
      by_cases hs : s < 2
      · rw [if_pos hs] at h
        rcases List.mem_cons.mp h with h' | h'
        · simp [h', ha]
        · exact List.mem_cons_of_mem a (ih (s + 1) h')
      · rw [if_neg hs] at h
        exact List.mem_cons_of_mem a (ih s h)
    · rw [if_neg ha] at h
      rcases List.mem_cons.mp h with h' | h'
      · simp [h']
      · exact List.mem_cons_of_mem a (ih 0 h')

/-- The newline collapse at `seen = 0` preserves the head character. -/
theorem head_collapseNlAux_zero (l : List Char) :
    (collapseNlAux 0 l).head? = l.head? := by
  cases l with
  | nil => rfl
  | cons a t =>
    unfold collapseNlAux
    by_cases ha : a = '\n'
    · rw [if_pos ha, if_pos (by omega)]; simp [ha]
    · rw [if_neg ha]; rfl

/-- A head that is not a newline does not participate in a triple
newline. -/
theorem hasTriple_cons_of_ne {a : Char} (h : a ≠ '\n') (t : List Char) :
    hasTripleNl (a :: t) = hasTripleNl t := by
  cases t with
  | nil => rfl
  | cons b t' =>
    cases t' with
    | nil => rfl
    | cons c t'' =>
      show (decide (a = '\n') && decide (b = '\n') && decide (c = '\n') ||
          hasTripleNl (b :: c :: t'')) = hasTripleNl (b :: c :: t'')
      simp [h]

/-- Tails of triple-newline-free lists are triple-newline-free. -/
theorem hasTriple_cons_false {a : Char} {t : List Char}
    (h : hasTripleNl (a :: t) = false) : hasTripleNl t = false := by
  cases t with
  | nil => rfl
  | cons b t' =>
    cases t' with
    | nil => rfl
    | cons c t'' =>
      unfold hasTripleNl at h
      exact (Bool.or_eq_false_iff.mp h).2

/-- If the second element is not a newline, the head does not start a
triple newline. -/
theorem hasTriple_snd_ne {a : Char} {t : List Char}
    (h : ∀ c, t.head? = some c → c ≠ '\n') :
    hasTripleNl (a :: t) = hasTripleNl t := by
  cases t with
  | nil => rfl
  | cons b t' =>
    have hb : b ≠ '\n' := h b rfl
    cases t' with
    | nil => rfl
    | cons c t'' =>
      show (decide (a = '\n') && decide (b = '\n') && decide (c = '\n') ||
          hasTripleNl (b :: c :: t'')) = hasTripleNl (b :: c :: t'')
      simp [hb]

/-- A triple-newline-free list starts with at most two newlines. -/
theorem leadNl_le_two {l : List Char} (h : hasTripleNl l = false) :
    (l.takeWhile (fun c => c = '\n')).length ≤ 2 := by
  rcases l with _ | ⟨a, _ | ⟨b, _ | ⟨c, t⟩⟩⟩
  · simp
  · by_cases ha : a = '\n' <;> simp [List.takeWhile_cons, ha]
  · by_cases ha : a = '\n' <;> by_cases hb : b = '\n' <;>
      simp [List.takeWhile_cons, ha, hb]
  · by_cases ha : a = '\n'
    · subst ha
      by_cases hb : b = '\n'
      · subst hb
        by_cases hc : c = '\n'
        · subst hc
          exfalso
          have hfalse : (decide (('\n' : Char) = '\n') && decide (('\n' : Char) = '\n') &&
              decide (('\n' : Char) = '\n') || hasTripleNl ('\n' :: '\n' :: t)) = false := h
          simp at hfalse
        · simp [List.takeWhile_cons, hc]
      · simp [List.takeWhile_cons, hb]
    · simp [List.takeWhile_cons, ha]

/-- Joint invariant of the newline collapse: the output has no triple
newline and, starting from state `s ≤ 2`, begins with at most `2 - s`
newlines. -/
theorem collapseNlAux_invariant :
    ∀ (l : List Char) (s : Nat), s ≤ 2 →
      hasTripleNl (collapseNlAux s l) = false ∧
      ((collapseNlAux s l).takeWhile (fun c => c = '\n')).length + s ≤ 2 := by
  intro l
  induction l with
  | nil => intro s hs; exact ⟨rfl, by simpa [collapseNlAux] using hs⟩
  | cons a t ih =>
    intro s hs
    unfold collapseNlAux
    by_cases ha : a = '\n'
    · rw [if_pos ha]
      by_cases hlt : s < 2
      · rw [if_pos hlt]
        obtain ⟨ih1, ih2⟩ := ih (s + 1) (by omega)
        rcases hX : collapseNlAux (s + 1) t with _ | ⟨x, xs⟩
        · refine ⟨rfl, ?_⟩
          simp only [ha, List.takeWhile_cons]
          simp
          omega
        · rw [hX] at ih1 ih2
          constructor
          · by_cases hx : x = '\n'
            · subst hx
              rcases xs with _ | ⟨y, ys⟩
              · rfl
              · have hy : y ≠ '\n' := by
                  intro hy
                  rw [hy] at ih2
                  simp [List.takeWhile_cons] at ih2
                  omega
                simp only [hasTripleNl]
                simp [hy, ih1]
            · rw [hasTriple_snd_ne (fun c hc => by simp at hc; subst hc; exact hx)]
              exact ih1
          · simp only [ha, List.takeWhile_cons]
            simp [List.takeWhile_cons] at ih2 ⊢
            omega
      · rw [if_neg hlt]
        exact ih s hs
    · rw [if_neg ha]
      obtain ⟨ih1, _⟩ := ih 0 (by omega)
      refine ⟨?_, ?_⟩
      · rw [hasTriple_cons_of_ne ha]
        exact ih1
      · simp [List.takeWhile_cons, ha]
        omega

/-- A double space survives prepending one character. -/
theorem hasDouble_cons_mono {a : Char} {t : List Char}
    (h : hasDoubleSpace t = true) : hasDoubleSpace (a :: t) = true := by
  cases t with
  | nil => exact absurd h Bool.false_ne_true
  | cons b t' =>
    show (decide (a = ' ') && decide (b = ' ') || hasDoubleSpace (b :: t')) = true
    simp [h]

/-- A double space survives extending the list on the left. -/
theorem hasDouble_append_left {m : List Char} (x : List Char)
    (h : hasDoubleSpace m = true) : hasDoubleSpace (x ++ m) = true := by
  induction x with
  | nil => simpa using h
  | cons a xs ih => exact hasDouble_cons_mono ih

/-- A double space survives extending the list on the right. -/
theorem hasDouble_append_right (x : List Char) :
    ∀ m : List Char, hasDoubleSpace m = true → hasDoubleSpace (m ++ x) = true
  | [], h => absurd h Bool.false_ne_true
  | [_], h => absurd h Bool.false_ne_true
  | a :: b :: t, h => by
    show (decide (a = ' ') && decide (b = ' ') || hasDoubleSpace (b :: (t ++ x))) = true
    have h' : (decide (a = ' ') && decide (b = ' ') || hasDoubleSpace (b :: t)) = true := h
    rcases Bool.or_eq_true_iff.mp h' with h1 | h2
    · simp [h1]
    · have := hasDouble_append_right x (b :: t) h2
      simp only [List.cons_append] at this
      simp [this]

/-- Double-space-freedom restricts to infixes. -/
theorem hasDouble_of_infix {m l : List Char} (hinf : m <:+: l)
    (h : hasDoubleSpace l = false) : hasDoubleSpace m = false := by
  obtain ⟨u, v, rfl⟩ := hinf
  by_contra hm
  rw [Bool.not_eq_false] at hm
  have htrue := hasDouble_append_left u (hasDouble_append_right v m hm)
  rw [← List.append_assoc] at htrue
  rw [h] at htrue
  cases htrue

/-- A triple newline survives prepending one character. -/
theorem hasTriple_cons_mono {a : Char} {t : List Char}
    (h : hasTripleNl t = true) : hasTripleNl (a :: t) = true := by
  rcases t with _ | ⟨b, _ | ⟨c, t''⟩⟩
  · exact absurd h Bool.false_ne_true
  · exact absurd h Bool.false_ne_true
  · show (decide (a = '\n') && decide (b = '\n') && decide (c = '\n') ||
        hasTripleNl (b :: c :: t'')) = true
    simp [h]

/-- A triple newline survives extending the list on the left. -/
theorem hasTriple_append_left {m : List Char} (x : List Char)
    (h : hasTripleNl m = true) : hasTripleNl (x ++ m) = true := by
  induction x with
  | nil => simpa using h
  | cons a xs ih => exact hasTriple_cons_mono ih

/-- A triple newline survives extending the list on the right. -/
theorem hasTriple_append_right (x : List Char) :
    ∀ m : List Char, hasTripleNl m = true → hasTripleNl (m ++ x) = true
  | [], h => absurd h Bool.false_ne_true
  | [_], h => absurd h Bool.false_ne_true
  | [_, _], h => absurd h Bool.false_ne_true
  | a :: b :: c :: t, h => by
    show (decide (a = '\n') && decide (b = '\n') && decide (c = '\n') ||
        hasTripleNl (b :: c :: (t ++ x))) = true
    have h' : (decide (a = '\n') && decide (b = '\n') && decide (c = '\n') ||
        hasTripleNl (b :: c :: t)) = true := h
    rcases Bool.or_eq_true_iff.mp h' with h1 | h2
    · simp [h1]
    · have := hasTriple_append_right x (b :: c :: t) h2
      simp only [List.cons_append] at this
      simp [this]

/-- Triple-newline-freedom restricts to infixes. -/
theorem hasTriple_of_infix {m l : List Char} (hinf : m <:+: l)
    (h : hasTripleNl l = false) : hasTripleNl m = false := by
  obtain ⟨u, v, rfl⟩ := hinf
  by_contra hm
  rw [Bool.not_eq_false] at hm
  have htrue := hasTriple_append_left u (hasTriple_append_right v m hm)
  rw [← List.append_assoc] at htrue
  rw [h] at htrue
  cases htrue

/-- Python `strip` produces an infix of its input. -/
theorem stripChars_isInfix (l : List Char) : stripChars l <:+: l := by
  rw [show stripChars l = (l.dropWhile pyWs).rdropWhile pyWs from rfl]
  exact (List.rdropWhile_prefix _ _).isInfix.trans (List.dropWhile_suffix _).isInfix

/-- The head that survives a `dropWhile` falsifies the predicate. -/
theorem head?_dropWhile_false {p : Char → Bool} :
    ∀ {l : List Char} {c : Char}, (l.dropWhile p).head? = some c → p c = false := by
  intro l
  induction l with
  | nil => intro c h; simp at h
  | cons a t ih =>
    intro c h
    rw [List.dropWhile_cons] at h
    by_cases hp : p a
    · rw [if_pos hp] at h; exact ih h
    · rw [if_neg hp] at h
      obtain rfl : a = c := by simpa using h
      exact Bool.of_not_eq_true hp

/-- The first character of a stripped list is not whitespace. -/
theorem head_stripChars {l : List Char} {c : Char}
    (h : (stripChars l).head? = some c) : pyWs c = false := by
  have hpre : stripChars l <+: l.dropWhile pyWs := by
    rw [show stripChars l = (l.dropWhile pyWs).rdropWhile pyWs from rfl]
    exact List.rdropWhile_prefix _ _
  obtain ⟨t, ht⟩ := hpre
  rcases hS : stripChars l with _ | ⟨a, rest⟩
  · rw [hS] at h; cases h
  · rw [hS] at h ht
    obtain rfl : a = c := by simpa using h
    have hhd : (l.dropWhile pyWs).head? = some a := by rw [← ht]; rfl
    exact head?_dropWhile_false hhd

/-- The last character of a stripped list is not whitespace. -/
theorem getLast_stripChars {l : List Char} {c : Char}
    (h : (stripChars l).getLast? = some c) : pyWs c = false := by
  rw [← List.head?_reverse] at h
  have hrev : (stripChars l).reverse = ((l.dropWhile pyWs).reverse).dropWhile pyWs := by
    rw [show stripChars l = (((l.dropWhile pyWs).reverse).dropWhile pyWs).reverse from rfl]
    rw [List.reverse_reverse]
  rw [hrev] at h
  exact head?_dropWhile_false h

/-- Dropping-while is the identity when the head already falsifies the
predicate. -/
theorem dropWhile_eq_self_of_head {p : Char → Bool} {l : List Char}
    (h : ∀ c, l.head? = some c → p c = false) : l.dropWhile p = l := by
  cases l with
  | nil => rfl
  | cons a t => rw [List.dropWhile_cons, if_neg (by simp [h a rfl])]

/-- Python `strip` is idempotent. -/
theorem stripChars_idem (l : List Char) : stripChars (stripChars l) = stripChars l := by
  have h1 : (stripChars l).dropWhile pyWs = stripChars l :=
    dropWhile_eq_self_of_head (fun c hc => head_stripChars hc)
  show (((stripChars l).dropWhile pyWs).reverse.dropWhile pyWs).reverse = stripChars l
  rw [h1]
  have h2 : (stripChars l).reverse.dropWhile pyWs = (stripChars l).reverse := by
    apply dropWhile_eq_self_of_head
    intro c hc
    rw [List.head?_reverse] at hc
    exact getLast_stripChars hc
  rw [h2, List.reverse_reverse]

/-- The NBSP replacement is the identity on NBSP-free lists. -/
theorem replNbsp_eq_self : ∀ {l : List Char}, '\u00A0' ∉ l → replNbsp l = l := by
  intro l
  induction l with
  | nil => intro _; rfl
  | cons a t ih =>
    intro h
    rw [List.mem_cons, not_or] at h
    show (if a = '\u00A0' then ' ' else a) :: replNbsp t = a :: t
    rw [if_neg (fun hc => h.1 hc.symm), ih h.2]

/-- The space/tab collapse is the identity on tab-free lists with no
double space (in-run form: additionally the head is not a space/tab). -/
theorem collapseSTAux_eq_self :
    ∀ l : List Char, '\t' ∉ l → hasDoubleSpace l = false →
      collapseSTAux false l = l ∧
        ((∀ c, l.head? = some c → isSpaceTab c = false) → collapseSTAux true l = l) := by
  intro l
  induction l with
  | nil => intro _ _; exact ⟨rfl, fun _ => rfl⟩
  | cons a t ih =>
    intro htab hdbl
    rw [List.mem_cons, not_or] at htab
    obtain ⟨ih1, ih2⟩ := ih htab.2 (hasDouble_cons_false hdbl)
    constructor
    · by_cases ha : isSpaceTab a
      · have ha' : a = ' ' := by
          have h1 : (decide (a = ' ') || decide (a = '\t')) = true := ha
          rcases Bool.or_eq_true_iff.mp h1 with h2 | h2
          · exact of_decide_eq_true h2
          · exact absurd (of_decide_eq_true h2) (fun hc => htab.1 hc.symm)
        subst ha'
        have hhead : ∀ c, t.head? = some c → isSpaceTab c = false := by
          intro c hc
          have hc1 : c ≠ ' ' := head_ne_space_of_hasDouble_false hdbl c hc
          have hc2 : c ≠ '\t' := by
            rintro rfl
            apply htab.2
            rcases t with _ | ⟨b, t'⟩
            · simp at hc
            · obtain rfl : b = '\t' := by simpa using hc
              exact List.mem_cons_self _ _
          show (decide (c = ' ') || decide (c = '\t')) = false
          simp [hc1, hc2]
        show (if isSpaceTab ' ' then
            if false then collapseSTAux true t else ' ' :: collapseSTAux true t
          else ' ' :: collapseSTAux false t) = ' ' :: t
        rw [if_pos (by decide), if_neg (by simp), ih2 hhead]
      · show (if isSpaceTab a then
            if false then collapseSTAux true t else ' ' :: collapseSTAux true t
          else a :: collapseSTAux false t) = a :: t
        rw [if_neg ha, ih1]
    · intro hh
      have ha : isSpaceTab a = false := hh a rfl
      show (if isSpaceTab a then
          if true then collapseSTAux true t else ' ' :: collapseSTAux true t
        else a :: collapseSTAux false t) = a :: t
      rw [if_neg (by simp [ha]), ih1]

/-- The newline collapse is the identity on triple-newline-free lists
(when the starting state leaves enough capacity). -/
theorem collapseNlAux_eq_self :
    ∀ (l : List Char) (s : Nat), hasTripleNl l = false →
      (l.takeWhile (fun c => c = '\n')).length + s ≤ 2 → collapseNlAux s l = l := by
  intro l
  induction l with
  | nil => intro s _ _; rfl
  | cons a t ih =>
    intro s htriple hlen
    unfold collapseNlAux
    by_cases ha : a = '\n'
    · subst ha
      simp [List.takeWhile_cons] at hlen
      rw [if_pos rfl, if_pos (show s < 2 by omega)]
      rw [ih (s + 1) (hasTriple_cons_false htriple) (by omega)]
    · rw [if_neg ha]
      have hlead := leadNl_le_two (hasTriple_cons_false htriple)
      rw [ih 0 (hasTriple_cons_false htriple) (by omega)]
/-- The newline collapse preserves absence of double spaces. -/
theorem hasDouble_collapseNlAux :
    ∀ (l : List Char) (s : Nat), hasDoubleSpace l = false →
      hasDoubleSpace (collapseNlAux s l) = false := by
  intro l
  induction l with
  | nil => intro s _; rfl
  | cons a t ih =>
    intro s h
    unfold collapseNlAux
    by_cases ha : a = '\n'
    · rw [if_pos ha]
      by_cases hlt : s < 2
      · rw [if_pos hlt]
        have hne : ('\n' : Char) ≠ ' ' := by decide
        rw [hasDouble_cons_of_ne hne]
        exact ih (s + 1) (hasDouble_cons_false h)
      · rw [if_neg hlt]
        exact ih s (hasDouble_cons_false h)
    · rw [if_neg ha]
      by_cases ha' : a = ' '
      · subst ha'
        rcases hX : collapseNlAux 0 t with _ | ⟨x, xs⟩
        · rfl
        · have hxh : t.head? = some x := by
            rw [← head_collapseNlAux_zero, hX]; rfl
          have hx : x ≠ ' ' := head_ne_space_of_hasDouble_false h x hxh
          have hrec := ih 0 (hasDouble_cons_false h)
          rw [hX] at hrec
          show (decide (' ' = ' ') && decide (x = ' ') || hasDoubleSpace (x :: xs)) = false
          simp [hx, hrec]
      · rw [hasDouble_cons_of_ne ha']
        exact ih 0 (hasDouble_cons_false h)

set_option maxRecDepth 4000 in
/-- Witness for C3: an environment where every text method fails and the
page-image fallback succeeds, and one where the first three variants
fail and `pdfminer` wins. -/
theorem C3_cascade_first_acceptance_witness :
    stepText cascadeEnvImages 3 = none ∧ cascadeEnvImages.pageimages_ok = true ∧
    stepText cascadeEnvMiner 0 = none ∧
    stepText cascadeEnvMiner 4 = resultText (convert_pdf_to_html_text_first cascadeEnvMiner) :=
  ⟨(C3_cascade_first_acceptance cascadeEnvImages).1 3 (by decide),
   (C3_cascade_first_acceptance cascadeEnvImages).2.2.1 (by decide),
   (C3_cascade_first_acceptance cascadeEnvMiner).1 0 (by decide),
   ((C3_cascade_first_acceptance cascadeEnvMiner).2.1 (by decide)).1⟩

/-- C10: `clean_text` is idempotent, and its output contains no
non-breaking space, no tab, no two consecutive spaces, no three
consecutive newlines, and no leading or trailing whitespace. -/
theorem C10_clean_text_normalization (s : String) :
    clean_text (clean_text s) = clean_text s ∧
    (clean_text s).data.count '\u00A0' = 0 ∧
    (clean_text s).data.count '\t' = 0 ∧
    hasDoubleSpace (clean_text s).data = false ∧
    hasTripleNl (clean_text s).data = false ∧
    (clean_text s).data.head?.all (fun c => !pyWs c) = true ∧
    (clean_text s).data.getLast?.all (fun c => !pyWs c) = true := by
  have hdbl : hasDoubleSpace (cleanChars s.data) = false :=
    hasDouble_of_infix (stripChars_isInfix _)
      (hasDouble_collapseNlAux _ 0 (hasDouble_collapseSTAux _ _))
  have htri : hasTripleNl (cleanChars s.data) = false :=
    hasTriple_of_infix (stripChars_isInfix _)
      (collapseNlAux_invariant (collapseST (replNbsp s.data)) 0 (by omega)).1
  have hnbsp : '\u00A0' ∉ cleanChars s.data := by
    intro hmem
    have h1 := (stripChars_isInfix _).subset hmem
    have h2 := mem_collapseNlAux _ _ h1
    rcases mem_collapseSTAux _ _ h2 with h3 | h3
    · exact absurd h3 (by decide)
    · rcases List.mem_map.mp h3 with ⟨c, _, hc⟩
      by_cases hcn : c = '\u00A0'
      · rw [if_pos hcn] at hc; exact absurd hc (by decide)
      · rw [if_neg hcn] at hc; exact hcn hc
  have htab : '\t' ∉ cleanChars s.data := by
    intro hmem
    exact tab_not_mem_collapseSTAux _ _
      (mem_collapseNlAux _ _ ((stripChars_isInfix _).subset hmem))
  have hidem : cleanChars (cleanChars s.data) = cleanChars s.data := by
    have e1 : replNbsp (cleanChars s.data) = cleanChars s.data := replNbsp_eq_self hnbsp
    have e2 : collapseSTAux false (cleanChars s.data) = cleanChars s.data :=
      (collapseSTAux_eq_self _ htab hdbl).1
    have e3 : collapseNlAux 0 (cleanChars s.data) = cleanChars s.data :=
      collapseNlAux_eq_self _ 0 htri (by have := leadNl_le_two htri; omega)
    have e4 : stripChars (collapseNl (collapseST (replNbsp s.data))) =
        cleanChars s.data := rfl
    show stripChars (collapseNl (collapseST (replNbsp (cleanChars s.data)))) =
      cleanChars s.data
    rw [e1]
    rw [show collapseST (cleanChars s.data) = cleanChars s.data from e2]
    rw [show collapseNl (cleanChars s.data) = cleanChars s.data from e3]
    show stripChars (stripChars (collapseNl (collapseST (replNbsp s.data)))) =
      cleanChars s.data
    rw [stripChars_idem]
    exact e4
  refine ⟨?_, ?_, ?_, hdbl, htri, ?_, ?_⟩
  · show (⟨cleanChars (cleanChars s.data)⟩ : String) = ⟨cleanChars s.data⟩
    exact congrArg String.mk hidem
  · exact List.count_eq_zero.mpr hnbsp
  · exact List.count_eq_zero.mpr htab
  · rcases hh : (clean_text s).data.head? with _ | c
    · rfl
    · have : pyWs c = false := head_stripChars hh
      simp [this]
  · rcases hh : (clean_text s).data.getLast? with _ | c
    · rfl
    · have : pyWs c = false := getLast_stripChars hh
      simp [this]

end Rag
